import Mathlib

/-!
Shallow embedding of the DCCGenerator firmware core
(`src/ArduinoGenerator.ino`), covering the DCC bit-stream encoder
(`pack_command`), the signal-generator ISR's buffer-advance dispatch,
the power-mode controller, the packet composition routines, the
buffer-management routine, the current-load monitor, the function
cache and the error queue, together with theorems settling the
specification claims about them.
-/

namespace DCCGen

/-! ## Firmware constants (values as defined in the source) -/

def DCC_SHORT_PREAMBLE : Nat := 15
def DCC_LONG_PREAMBLE : Nat := 30
def BIT_TRANSITIONS : Nat := 40
def MAXIMUM_BIT_ITERATIONS : Nat := 255
def MAXIMUM_DCC_COMMAND : Nat := 6
def MAXIMUM_SHORT_ADDRESS : Nat := 127
def EMERGENCY_STOP : Int := -1

def TRANSIENT_COMMAND_REPEATS : Nat := 8
def SERVICE_MODE_RESET_REPEATS : Nat := 20
def SERVICE_MODE_COMMAND_REPEATS : Nat := 10

def TBS_EMPTY : Nat := 0
def TBS_LOAD : Nat := 1
def TBS_RUN : Nat := 2
def TBS_RELOAD : Nat := 3

def NO_REPLY_REQUIRED : Nat := 0
def REPLY_ON_CONFIRM : Nat := 1
def REPLY_ON_SEND : Nat := 2

def ERROR_QUEUE_OVERFLOW : Int := 1
def BIT_TRANS_OVERFLOW : Int := 3
def INVALID_CV_NUMBER : Int := 12
def INVALID_BYTE_VALUE : Int := 16
def POWER_NOT_OFF : Int := 21
def POWER_OVERLOAD : Int := 22
def POWER_SPIKE : Int := 23
def INVALID_STATE : Int := 11

def ERROR_QUEUE_SIZE : Nat := 5

def COMPOUNDED_VALUES : Nat := 10
def SHORT_AVERAGE_VALUE : Nat := 2
def INSTANT_CURRENT_LIMIT : Int := 750
def AVERAGE_CURRENT_LIMIT : Int := 500
def MINIMUM_DELTA_AMPS : Int := 35

def MINIMUM_CV_ADDRESS : Int := 1
def MAXIMUM_CV_ADDRESS : Int := 1024

/-! ## Bit-stream encoder (`pack_command`)

The encoder turns a parity-extended DCC command (a list of byte
values) into a zero-terminated list of run-length cells.  The local
variables of the C routine are gathered into a state record:
`l` is the remaining cell budget, `b` records which bit value the
current run is counting (`false` for `0`s, i.e. C value `0`, `true`
for `1`s, i.e. C value `0x80`), `c` is the current run counter
(a C `byte`, hence kept modulo 256) and `out` holds the cells
emitted after the preamble cell.  The `ASSERT` statements of the
source only log an error and do not alter the computation, so they
have no counterpart here. -/

structure PackState where
  l : Nat
  b : Bool
  c : Nat
  out : List Nat
deriving Repr, DecidableEq

/-- The eight bits of a byte value, most significant first, as the
`( v & 0x80 ); v <<= 1` loop of the source visits them. -/
def byteBits (v : Nat) : List Bool :=
  (List.range 8).map (fun i => Nat.testBit (v % 256) (7 - i))

/-- One flush-or-extend step: a bit matching the accumulating run
increments its counter, a differing bit emits the counter as a cell
(consuming one cell of budget, failing if the budget is exhausted)
and starts a run of one opposite bit. -/
def pushBit (bit : Bool) (s : PackState) : Option PackState :=
  if bit = s.b then
    some ⟨s.l, s.b, (s.c + 1) % 256, s.out⟩
  else if s.l = 1 then
    none
  else
    some ⟨s.l - 1, !s.b, 1, s.out ++ [s.c]⟩

def pushBits (bits : List Bool) (s : PackState) : Option PackState :=
  match bits with
  | [] => some s
  | bit :: rest => (pushBit bit s).bind (pushBits rest)

/-- The `while( clen-- )` loop of `pack_command`: each byte is fed in
MSB first, followed by the inter-byte `0` (while further bytes
remain) or the end-of-packet `1` (after the last byte). -/
def packBytes (bytes : List Nat) (s : PackState) : Option PackState :=
  match bytes with
  | [] => some s
  | v :: rest =>
    ((pushBits (byteBits v) s).bind (pushBit rest.isEmpty)).bind (packBytes rest)

/-- `pack_command( cmd, clen, long_preamble, buf )`: the preamble
cell is written first, the pump is primed with the end-of-header `0`
(`b = 0`, `c = 1`), the bytes are processed, and finally the counted
run and the terminating `0` cell are appended (each consuming budget).
Returns the cell list on success, `none` on buffer exhaustion. -/
def pack_command (cmd : List Nat) (long_preamble : Bool) : Option (List Nat) :=
  (packBytes cmd ⟨BIT_TRANSITIONS - 1, false, 1, []⟩).bind fun s =>
    if s.l = 1 then none
    else if s.l - 1 = 1 then none
    else some ((if long_preamble then DCC_LONG_PREAMBLE else DCC_SHORT_PREAMBLE)
        :: s.out ++ [s.c, 0])

/-! ## Decoding run-length cells back into bits -/

/-- Decode an (unterminated) cell list into bits, alternating the bit
value starting from `bit`. -/
def runsToBits (cells : List Nat) (bit : Bool) : List Bool :=
  match cells with
  | [] => []
  | n :: rest => List.replicate n bit ++ runsToBits rest (!bit)

/-- Decode cells the way the signal-generator ISR consumes them: a
zero cell terminates the stream. -/
def decodeCells (cells : List Nat) (bit : Bool) : List Bool :=
  match cells with
  | [] => []
  | n :: rest => if n = 0 then [] else List.replicate n bit ++ decodeCells rest (!bit)

/-- The bit sequence a DCC packet should carry after the preamble and
end-of-header `0`: each byte MSB first, bytes separated by a `0`,
with a final `1` after the last byte. -/
def sepJoin (bytes : List Nat) : List Bool :=
  match bytes with
  | [] => []
  | [v] => byteBits v ++ [true]
  | v :: rest => byteBits v ++ false :: sepJoin rest

/-- The full claimed bit sequence of an encoded packet. -/
def dccBits (pre : Nat) (bytes : List Nat) : List Bool :=
  List.replicate pre true ++ false :: sepJoin bytes

/-- The bits represented by an encoder state: the flushed cells
(which alternate starting from the `0` of the end-of-header bit)
followed by the run currently being counted. -/
def runBits (s : PackState) : List Bool :=
  runsToBits s.out false ++ List.replicate s.c s.b

/-- Invariant maintained by the encoder loop: the tracked bit value
matches the alternation parity of the flushed cells, the run counter
is a positive byte, every flushed cell is a positive byte, and cell
budget remains. -/
def PackInv (s : PackState) : Prop :=
  s.b = decide (s.out.length % 2 = 1) ∧ 1 ≤ s.c ∧ s.c ≤ 255 ∧
    (∀ x ∈ s.out, 1 ≤ x ∧ x ≤ 255) ∧ 1 ≤ s.l

lemma runsToBits_length (cells : List Nat) (b : Bool) :
    (runsToBits cells b).length = cells.sum := by
  induction cells generalizing b with
  | nil => simp [runsToBits]
  | cons n rest ih => simp [runsToBits, ih]

lemma runBits_length (s : PackState) : (runBits s).length = s.out.sum + s.c := by
  simp [runBits, runsToBits_length]

lemma c_le_runBits_length (s : PackState) : s.c ≤ (runBits s).length := by
  rw [runBits_length]; omega

lemma not_decide_mod_two (n : Nat) :
    (!(decide (n % 2 = 1))) = decide ((n + 1) % 2 = 1) := by
  rcases Nat.mod_two_eq_zero_or_one n with h | h <;> simp [Nat.add_mod, h]

lemma runsToBits_append (xs ys : List Nat) (b : Bool) :
    runsToBits (xs ++ ys) b =
      runsToBits xs b ++ runsToBits ys (if xs.length % 2 = 0 then b else !b) := by
  induction xs generalizing b with
  | nil => simp [runsToBits]
  | cons x xs ih =>
    rcases Nat.mod_two_eq_zero_or_one xs.length with h | h <;>
      simp [runsToBits, ih (!b), h, Nat.add_mod, List.append_assoc]

lemma pushBit_spec {bit : Bool} {s s' : PackState} (h : pushBit bit s = some s')
    (hI : PackInv s) (hc : s.c < 255) :
    PackInv s' ∧ runBits s' = runBits s ++ [bit] := by
  obtain ⟨hb, hc1, hc2, hout, hl⟩ := hI
  unfold pushBit at h
  split_ifs at h with h1 h2
  · injection h with h'
    subst h'
    have hmod : (s.c + 1) % 256 = s.c + 1 := Nat.mod_eq_of_lt (by omega)
    refine ⟨⟨hb, ?_, ?_, hout, hl⟩, ?_⟩
    · show 1 ≤ (s.c + 1) % 256
      rw [hmod]; omega
    · show (s.c + 1) % 256 ≤ 255
      rw [hmod]; omega
    · show runsToBits s.out false ++ List.replicate ((s.c + 1) % 256) s.b
        = (runsToBits s.out false ++ List.replicate s.c s.b) ++ [bit]
      rw [hmod, List.replicate_succ', h1, List.append_assoc]
  · injection h with h'
    subst h'
    have hbit : bit = !s.b := by
      rcases Bool.eq_false_or_eq_true bit with hb1 | hb1 <;>
        rcases Bool.eq_false_or_eq_true s.b with hb2 | hb2 <;>
          simp [hb1, hb2] at h1 ⊢
    refine ⟨⟨?_, le_refl 1, ?_, ?_, ?_⟩, ?_⟩
    · show (!s.b) = decide ((s.out ++ [s.c]).length % 2 = 1)
      rw [List.length_append, List.length_singleton, hb, not_decide_mod_two]
    · show (1 : Nat) ≤ 255
      omega
    · intro x hx
      rcases List.mem_append.mp hx with hx | hx
      · exact hout x hx
      · simp only [List.mem_singleton] at hx
        exact hx ▸ ⟨hc1, hc2⟩
    · show 1 ≤ s.l - 1
      omega
    · show runsToBits (s.out ++ [s.c]) false ++ List.replicate 1 (!s.b)
        = (runsToBits s.out false ++ List.replicate s.c s.b) ++ [bit]
      rw [runsToBits_append]
      have hsb : (if s.out.length % 2 = 0 then false else !false) = s.b := by
        rw [hb]
        rcases Nat.mod_two_eq_zero_or_one s.out.length with h0 | h0 <;> simp [h0]
      rw [hsb, hbit]
      simp [runsToBits, List.append_assoc]

lemma pushBits_spec {bits : List Bool} {s s' : PackState}
    (h : pushBits bits s = some s') (hI : PackInv s)
    (hbound : (runBits s).length + bits.length ≤ 255) :
    PackInv s' ∧ runBits s' = runBits s ++ bits := by
  induction bits generalizing s with
  | nil =>
    unfold pushBits at h
    injection h with h'
    subst h'
    exact ⟨hI, by simp⟩
  | cons bit rest ih =>
    unfold pushBits at h
    cases hp : pushBit bit s with
    | none => rw [hp, Option.none_bind] at h; cases h
    | some s1 =>
      rw [hp, Option.some_bind] at h
      have hc : s.c < 255 := by
        have h1 := c_le_runBits_length s
        simp only [List.length_cons] at hbound
        omega
      obtain ⟨hI1, hr1⟩ := pushBit_spec hp hI hc
      have hbound1 : (runBits s1).length + rest.length ≤ 255 := by
        rw [hr1]
        simp only [List.length_append, List.length_singleton, List.length_cons,
          List.length_nil] at hbound ⊢
        omega
      obtain ⟨hI', hr'⟩ := ih h hI1 hbound1
      exact ⟨hI', by rw [hr', hr1, List.append_assoc]; rfl⟩

lemma byteBits_length (v : Nat) : (byteBits v).length = 8 := by
  simp [byteBits]

lemma sepJoin_length (bytes : List Nat) : (sepJoin bytes).length = 9 * bytes.length := by
  induction bytes with
  | nil => simp [sepJoin]
  | cons v rest ih =>
    cases rest with
    | nil => simp [sepJoin, byteBits_length]
    | cons w ws =>
      simp only [sepJoin, List.length_append, byteBits_length, List.length_cons] at ih ⊢
      omega

lemma packBytes_spec {bytes : List Nat} {s s' : PackState}
    (h : packBytes bytes s = some s') (hI : PackInv s)
    (hbound : (runBits s).length + 9 * bytes.length ≤ 255) :
    PackInv s' ∧ runBits s' = runBits s ++ sepJoin bytes := by
  induction bytes generalizing s with
  | nil =>
    unfold packBytes at h
    injection h with h'
    subst h'
    exact ⟨hI, by simp [sepJoin]⟩
  | cons v rest ih =>
    unfold packBytes at h
    cases hp : pushBits (byteBits v) s with
    | none => rw [hp, Option.none_bind, Option.none_bind] at h; cases h
    | some s1 =>
      rw [hp, Option.some_bind] at h
      obtain ⟨hI1, hr1⟩ := pushBits_spec hp hI
        (by rw [byteBits_length]; simp only [List.length_cons] at hbound; omega)
      cases hp2 : pushBit rest.isEmpty s1 with
      | none => rw [hp2, Option.none_bind] at h; cases h
      | some s2 =>
        rw [hp2, Option.some_bind] at h
        have hlen1 : (runBits s1).length = (runBits s).length + 8 := by
          rw [hr1]; simp [byteBits_length]
        have hc1 : s1.c < 255 := by
          have := c_le_runBits_length s1
          simp only [List.length_cons] at hbound
          omega
        obtain ⟨hI2, hr2⟩ := pushBit_spec hp2 hI1 hc1
        cases rest with
        | nil =>
          unfold packBytes at h
          injection h with h'
          subst h'
          refine ⟨hI2, ?_⟩
          rw [hr2, hr1]
          simp [sepJoin, List.append_assoc]
        | cons w ws =>
          have hbound2 : (runBits s2).length + 9 * (w :: ws).length ≤ 255 := by
            have hlen2 : (runBits s2).length = (runBits s1).length + 1 := by
              rw [hr2]; simp
            simp only [List.length_cons] at hbound
            simp only [List.length_cons, hlen2, hlen1]
            omega
          obtain ⟨hI', hr'⟩ := ih h hI2 hbound2
          refine ⟨hI', ?_⟩
          rw [hr', hr2, hr1]
          simp [sepJoin, List.append_assoc]

lemma decodeCells_cons (n : Nat) (rest : List Nat) (b : Bool) :
    decodeCells (n :: rest) b
      = if n = 0 then [] else List.replicate n b ++ decodeCells rest (!b) := rfl

lemma decodeCells_append_zero (cells : List Nat) (b : Bool)
    (h : ∀ x ∈ cells, x ≠ 0) :
    decodeCells (cells ++ [0]) b = runsToBits cells b := by
  induction cells generalizing b with
  | nil => simp [decodeCells, runsToBits]
  | cons n rest ih =>
    have hn : n ≠ 0 := h n (by simp)
    simp [decodeCells, runsToBits, hn, ih (!b) (fun x hx => h x (by simp [hx]))]

lemma pack_command_elim {cmd : List Nat} {lp : Bool} {cells : List Nat}
    (h : pack_command cmd lp = some cells) :
    ∃ s, packBytes cmd ⟨BIT_TRANSITIONS - 1, false, 1, []⟩ = some s ∧
      cells = ((if lp then DCC_LONG_PREAMBLE else DCC_SHORT_PREAMBLE)
        :: s.out ++ [s.c, 0]) := by
  unfold pack_command at h
  cases hp : packBytes cmd ⟨BIT_TRANSITIONS - 1, false, 1, []⟩ with
  | none => rw [hp, Option.none_bind] at h; cases h
  | some s =>
    rw [hp, Option.some_bind] at h
    set pre := (if lp then DCC_LONG_PREAMBLE else DCC_SHORT_PREAMBLE) with hpre
    split_ifs at h
    injection h with h'
    exact ⟨s, rfl, h'.symm⟩

lemma packInv_init : PackInv ⟨BIT_TRANSITIONS - 1, false, 1, []⟩ :=
  ⟨rfl, by decide, by decide, by simp, by decide⟩

lemma runBits_init : runBits ⟨BIT_TRANSITIONS - 1, false, 1, []⟩ = [false] := by
  simp [runBits, runsToBits]

/-- The heart of the round-trip argument: a successful `pack_command`
yields the preamble cell, positive byte-sized cells whose decoding is
exactly the DCC bit sequence of the command, and the terminator. -/
lemma pack_command_decode {cmd : List Nat} {lp : Bool} {cells : List Nat}
    (hlen : cmd.length ≤ MAXIMUM_DCC_COMMAND)
    (h : pack_command cmd lp = some cells) :
    ∃ s, PackInv s ∧
      cells = ((if lp then DCC_LONG_PREAMBLE else DCC_SHORT_PREAMBLE)
        :: s.out ++ [s.c, 0]) ∧
      runsToBits (s.out ++ [s.c]) false = false :: sepJoin cmd := by
  obtain ⟨s, hp, hcells⟩ := pack_command_elim h
  have hbound : (runBits ⟨BIT_TRANSITIONS - 1, false, 1, []⟩).length
      + 9 * cmd.length ≤ 255 := by
    rw [runBits_init]
    simp only [List.length_singleton]
    have : cmd.length ≤ 6 := hlen
    omega
  obtain ⟨hI, hr⟩ := packBytes_spec hp packInv_init hbound
  refine ⟨s, hI, hcells, ?_⟩
  obtain ⟨hb, hc1, hc2, hout, hl⟩ := hI
  rw [runsToBits_append]
  have hsb : (if s.out.length % 2 = 0 then false else !false) = s.b := by
    rw [hb]
    rcases Nat.mod_two_eq_zero_or_one s.out.length with h0 | h0 <;> simp [h0]
  rw [hsb]
  have hrl : runsToBits [s.c] s.b = List.replicate s.c s.b := by simp [runsToBits]
  rw [hrl]
  have hr' := hr
  rw [runBits_init] at hr'
  simpa [runBits] using hr'


/-! ## Claim C1: bit-stream round trip -/

/-- C1 (amended): for every command of 1 to 6 bytes on which
`pack_command` succeeds, decoding the produced run-length cells
reconstructs exactly (preamble 1s)(one 0)(byte bits MSB first,
0-separated)(one final 1), and the number of decoded bits equals
`preamble + 1 + 9 * n` for `n` data bytes (including parity); the
encoder appends no further postamble ones. -/
theorem C1_pack_roundtrip (cmd : List Nat) (lp : Bool) (cells : List Nat)
    (hlen1 : 1 ≤ cmd.length) (hlen6 : cmd.length ≤ MAXIMUM_DCC_COMMAND)
    (h : pack_command cmd lp = some cells) :
    decodeCells cells true
        = dccBits (if lp then DCC_LONG_PREAMBLE else DCC_SHORT_PREAMBLE) cmd ∧
    (decodeCells cells true).length
        = (if lp then DCC_LONG_PREAMBLE else DCC_SHORT_PREAMBLE) + 1 + 9 * cmd.length := by
  obtain ⟨s, hI, hcells, hdec⟩ := pack_command_decode hlen6 h
  obtain ⟨hb, hc1, hc2, hout, hl⟩ := hI
  have hnz : ∀ x ∈ s.out ++ [s.c], x ≠ 0 := by
    intro x hx
    rcases List.mem_append.mp hx with hx | hx
    · have := (hout x hx).1
      omega
    · simp only [List.mem_singleton] at hx
      omega
  have hpre : (if lp then DCC_LONG_PREAMBLE else DCC_SHORT_PREAMBLE) ≠ 0 := by
    rcases Bool.eq_false_or_eq_true lp with h0 | h0 <;>
      simp [h0, DCC_LONG_PREAMBLE, DCC_SHORT_PREAMBLE]
  have hmain : decodeCells cells true
      = dccBits (if lp then DCC_LONG_PREAMBLE else DCC_SHORT_PREAMBLE) cmd := by
    rw [hcells]
    show decodeCells
        ((if lp then DCC_LONG_PREAMBLE else DCC_SHORT_PREAMBLE) :: s.out ++ [s.c, 0]) true
      = _
    simp only [List.cons_append, decodeCells_cons, hpre, if_false]
    have hsplit : s.out ++ [s.c, 0] = (s.out ++ [s.c]) ++ [0] := by simp
    rw [hsplit, decodeCells_append_zero _ _ hnz]
    simp only [Bool.not_true]
    rw [hdec, dccBits]
  refine ⟨hmain, ?_⟩
  rw [hmain, dccBits]
  simp [sepJoin_length]
  omega

/-- Witness for `C1_pack_roundtrip` at the concrete command `[0xFF]`
with a short preamble, whose encoding is `[15, 1, 9, 0]`. -/
theorem C1_pack_roundtrip_witness :
    decodeCells [15, 1, 9, 0] true = dccBits DCC_SHORT_PREAMBLE [255] ∧
    (decodeCells [15, 1, 9, 0] true).length = DCC_SHORT_PREAMBLE + 1 + 9 * 1 := by
  have h := C1_pack_roundtrip [255] false [15, 1, 9, 0]
    (by decide) (by decide) (by decide)
  simpa using h

/-- Counterexample to C1 as stated: the claimed decoded-bit count
`preamble + 1 + 9 * n + postamble` requires at least one postamble
`1` beyond the end-of-packet bit (so at least 26 decoded bits for the
one-byte command `[0xFF]`), but the code emits no postamble cells:
`pack_command [0xFF]` with the short preamble yields `[15, 1, 9, 0]`,
which decodes to exactly 25 bits. -/
theorem C1_counterexample :
    pack_command [255] false = some [15, 1, 9, 0] ∧
    (decodeCells [15, 1, 9, 0] true).length = 25 ∧
    ¬ (26 ≤ (decodeCells [15, 1, 9, 0] true).length) := by
  decide

/-! ## Claim C7: emitted cells are nonzero (bar the terminator) and byte-sized -/

/-- C7: for every command of at most `MAXIMUM_DCC_COMMAND` bytes on
which `pack_command` succeeds, the produced cell list is a sequence
of cells between 1 and 255 followed by the single terminating zero
cell. -/
theorem C7_cells_nonzero_bounded (cmd : List Nat) (lp : Bool) (cells : List Nat)
    (hlen : cmd.length ≤ MAXIMUM_DCC_COMMAND)
    (h : pack_command cmd lp = some cells) :
    ∃ init, cells = init ++ [0] ∧ ∀ x ∈ init, 1 ≤ x ∧ x ≤ 255 := by
  obtain ⟨s, hI, hcells, hdec⟩ := pack_command_decode hlen h
  obtain ⟨hb, hc1, hc2, hout, hl⟩ := hI
  refine ⟨(if lp then DCC_LONG_PREAMBLE else DCC_SHORT_PREAMBLE) :: s.out ++ [s.c], ?_, ?_⟩
  · rw [hcells]; simp
  · intro x hx
    simp only [List.cons_append, List.mem_cons, List.mem_append,
      List.mem_singleton] at hx
    rcases hx with hx | hx | hx | hx
    · subst hx
      rcases Bool.eq_false_or_eq_true lp with h0 | h0 <;>
        simp [h0, DCC_LONG_PREAMBLE, DCC_SHORT_PREAMBLE]
    · exact hout x hx
    · subst hx
      exact ⟨hc1, hc2⟩
    · exact absurd hx (List.not_mem_nil x)

/-- Witness for `C7_cells_nonzero_bounded` at the concrete command
`[0xFF]`. -/
theorem C7_cells_nonzero_bounded_witness :
    ∃ init, [15, 1, 9, 0] = init ++ [(0 : Nat)] ∧ ∀ x ∈ init, 1 ≤ x ∧ x ≤ 255 :=
  C7_cells_nonzero_bounded [255] false [15, 1, 9, 0] (by decide) (by decide)

/-! ## Signal-generator ISR: end-of-stream buffer advance

When the ISR reads a zero cell the current bit stream is exhausted.
It then handles the finished buffer's duration, moves to the next
buffer of the ring and selects the bit stream to emit according to
that buffer's state (`ISR( TIMER2_COMPA_vect )`, the
`switch( current->state )` block).  A transmission buffer is viewed
through the fields this step touches. -/

def dcc_idle_packet : List Nat := [DCC_SHORT_PREAMBLE, 1, 8, 10, 9, 0]

def dcc_filler_data : List Nat := [1, 0]

structure SlotView where
  state : Nat
  duration : Nat
  pendingNonNull : Bool
  bits : List Nat
deriving Repr, DecidableEq

/-- Duration handling for a buffer whose bit stream just finished:
in RUN state with a live countdown, decrement it and fall back to
LOAD when it reaches zero. -/
def isr_finish_old (old : SlotView) : SlotView :=
  if old.duration ≠ 0 ∧ old.state = TBS_RUN then
    let d := old.duration - 1
    { old with duration := d, state := if d = 0 then TBS_LOAD else old.state }
  else old

/-- Bit-stream selection for the newly visited buffer: RUN emits the
buffer's own bits; RELOAD emits the idle packet and hands the buffer
to the manager as LOAD; LOAD emits the filler (a single `1` run) when
pending packets remain, otherwise the idle packet; every other state
emits the idle packet. -/
def isr_advance_select (s : SlotView) : List Nat × SlotView :=
  if s.state = TBS_RUN then
    (s.bits, s)
  else if s.state = TBS_RELOAD then
    (dcc_idle_packet, { s with state := TBS_LOAD })
  else if s.state = TBS_LOAD then
    ((if s.pendingNonNull then dcc_filler_data else dcc_idle_packet), s)
  else
    (dcc_idle_packet, s)

/-! ## Power mode controller -/

inductive PowerState where
  | off
  | main
  | prog
deriving Repr, DecidableEq

/-- The globally visible power condition: the mode variable
`global_power_state` plus the two H-bridge enable outputs. -/
structure PowerCtx where
  power : PowerState
  mainEnable : Bool
  progEnable : Bool
deriving Repr, DecidableEq

/-- `power_on_main_track`: unconditionally selects the main track,
returns whether the mode actually changed. -/
def power_on_main_track (p : PowerCtx) : PowerCtx × Bool :=
  (⟨PowerState.main, true, false⟩, p.power ≠ PowerState.main)

/-- `power_on_prog_track`: unconditionally selects the programming
track, returns whether the mode actually changed. -/
def power_on_prog_track (p : PowerCtx) : PowerCtx × Bool :=
  (⟨PowerState.prog, false, true⟩, p.power ≠ PowerState.prog)

/-- `power_off_tracks`: drops both enables, returns whether the mode
actually changed. -/
def power_off_tracks (p : PowerCtx) : PowerCtx × Bool :=
  (⟨PowerState.off, false, false⟩, p.power ≠ PowerState.off)

/-- The `case 'P'` handler of `scan_line`: argument 0 powers off;
arguments 1 and 2 power the main or programming track on, but only
from the OFF state, reporting `POWER_NOT_OFF` otherwise; any other
argument reports `INVALID_STATE`.  Returns the new power context and
an optional reported error code. -/
def scan_power_request (arg : Int) (p : PowerCtx) : PowerCtx × Option Int :=
  if arg = 0 then
    ((power_off_tracks p).1, none)
  else if arg = 1 then
    if p.power ≠ PowerState.off then (p, some POWER_NOT_OFF)
    else ((power_on_main_track p).1, none)
  else if arg = 2 then
    if p.power ≠ PowerState.off then (p, some POWER_NOT_OFF)
    else ((power_on_prog_track p).1, none)
  else
    (p, some INVALID_STATE)

/-! ## DCC packet composition -/

/-- `copy_with_parity`: the pending-packet pool appends the XOR of
all payload bytes. -/
def copy_with_parity (src : List Nat) : List Nat :=
  src ++ [src.foldl (fun p v => p ^^^ v) 0]

/-- `compose_motion_packet`: one or two address bytes, the 128-step
speed header `0b00111111`, then the direction/speed byte. -/
def compose_motion_packet (adrs : Nat) (speed : Int) (dir : Nat) : List Nat :=
  (if adrs > MAXIMUM_SHORT_ADDRESS then
      [0b11000000 ||| (adrs >>> 8), adrs &&& 0b11111111]
    else [adrs]) ++
  [0b00111111,
    if speed = 0 then dir <<< 7
    else if speed = EMERGENCY_STOP then (dir <<< 7) ||| 1
    else (dir <<< 7) ||| (speed + 1).toNat]

/-- `compose_digital_reset`: the two zero bytes of a digital reset. -/
def compose_digital_reset : List Nat := [0, 0]

/-- `compose_set_cv`: `0b011111CC VVVVVVVV DDDDDDDD` with the 10-bit
on-wire CV value `cv - 1`. -/
def compose_set_cv (cv value : Int) : List Nat :=
  [0b01111100 ||| (((cv - 1).toNat >>> 8) &&& 0b00000011),
   (cv - 1).toNat &&& 0b11111111,
   value.toNat]

/-! ## Claim C3: ISR buffer-advance dispatch -/

/-- C3: when the ISR exhausts a bit stream and advances to the next
buffer, it emits that buffer's own bits in RUN state; emits the idle
packet and moves the buffer to LOAD in RELOAD state; in LOAD state
emits the single-1-run filler exactly when the pending list is
non-null and the idle packet otherwise; and emits the idle packet in
every other state. -/
theorem C3_isr_advance_dispatch (s : SlotView) :
    (s.state = TBS_RUN → isr_advance_select s = (s.bits, s)) ∧
    (s.state = TBS_RELOAD →
      isr_advance_select s = (dcc_idle_packet, { s with state := TBS_LOAD })) ∧
    (s.state = TBS_LOAD →
      isr_advance_select s
        = ((if s.pendingNonNull then dcc_filler_data else dcc_idle_packet), s)) ∧
    (s.state ≠ TBS_RUN → s.state ≠ TBS_RELOAD → s.state ≠ TBS_LOAD →
      isr_advance_select s = (dcc_idle_packet, s)) := by
  refine ⟨fun h => ?_, fun h => ?_, fun h => ?_, fun h1 h2 h3 => ?_⟩
  · simp [isr_advance_select, h]
  · simp [isr_advance_select, h, TBS_RELOAD, TBS_RUN]
  · simp [isr_advance_select, h, TBS_LOAD, TBS_RUN, TBS_RELOAD]
  · simp [isr_advance_select, h1, h2, h3]

/-- Witness for `C3_isr_advance_dispatch`: a RELOAD buffer is handed
to the manager as LOAD while the idle packet is emitted. -/
theorem C3_isr_advance_dispatch_witness :
    isr_advance_select ⟨TBS_RELOAD, 0, false, [7, 0]⟩
      = (dcc_idle_packet, ⟨TBS_LOAD, 0, false, [7, 0]⟩) :=
  (C3_isr_advance_dispatch ⟨TBS_RELOAD, 0, false, [7, 0]⟩).2.1 rfl

/-! ## Claim C4: power-mode transitions only via OFF -/

/-- C4: a request to power the main track (argument 1) or the
programming track (argument 2) while the power state is not OFF is
rejected with `POWER_NOT_OFF` and leaves the power state and both
enable outputs unchanged; consequently no request ever takes the
state directly from MAIN to PROG or from PROG to MAIN. -/
theorem C4_power_not_off_rejected :
    (∀ (p : PowerCtx) (arg : Int), (arg = 1 ∨ arg = 2) →
      p.power ≠ PowerState.off →
      scan_power_request arg p = (p, some POWER_NOT_OFF)) ∧
    (∀ (p : PowerCtx) (arg : Int), p.power = PowerState.main →
      (scan_power_request arg p).1.power ≠ PowerState.prog) ∧
    (∀ (p : PowerCtx) (arg : Int), p.power = PowerState.prog →
      (scan_power_request arg p).1.power ≠ PowerState.main) := by
  refine ⟨?_, ?_, ?_⟩
  · intro p arg harg hoff
    rcases harg with rfl | rfl <;>
      simp [scan_power_request, hoff]
  · intro p arg h
    unfold scan_power_request power_off_tracks power_on_main_track power_on_prog_track
    split_ifs <;> simp_all
  · intro p arg h
    unfold scan_power_request power_off_tracks power_on_main_track power_on_prog_track
    split_ifs <;> simp_all

/-- Witness for `C4_power_not_off_rejected`: a PROG-on request while
MAIN is live is rejected and changes nothing. -/
theorem C4_power_not_off_rejected_witness :
    scan_power_request 2 ⟨PowerState.main, true, false⟩
      = (⟨PowerState.main, true, false⟩, some POWER_NOT_OFF) :=
  C4_power_not_off_rejected.1 ⟨PowerState.main, true, false⟩ 2
    (Or.inr rfl) (by decide)

/-! ## Claim C5: mobile speed/direction packet for target 3 -/

/-- C5 (amended): `compose_motion_packet 3 10 1` yields the payload
`[0x03, 0x3F, 0x8B]` with appended parity `0xB7`; its short-preamble
encoding begins with the cells `[15, 7, ...]` (the preamble followed
by the 0-run of the end-of-header bit merged with the six leading
zeros of address byte 3) rather than `[15, 1, ...]`; and in general
the speed byte is `dir <<< 7` ORed with 0 for speed 0, with 1 for
emergency stop, and with `speed + 1` otherwise, giving the encoded
range 2..127. -/
theorem C5_motion_packet :
    compose_motion_packet 3 10 1 = [0x03, 0x3F, 0x8B] ∧
    copy_with_parity (compose_motion_packet 3 10 1) = [0x03, 0x3F, 0x8B, 0xB7] ∧
    pack_command (copy_with_parity (compose_motion_packet 3 10 1)) false
      = some [15, 7, 2, 3, 6, 1, 1, 3, 1, 1, 2, 1, 1, 1, 2, 1, 4, 0] ∧
    (∀ speed : Int, 1 ≤ speed → speed ≤ 126 → ∀ dir : Nat, dir ≤ 1 →
      compose_motion_packet 3 speed dir
        = [3, 0b00111111, (dir <<< 7) ||| (speed + 1).toNat] ∧
      2 ≤ (speed + 1).toNat ∧ (speed + 1).toNat ≤ 127) ∧
    (∀ dir : Nat,
      compose_motion_packet 3 0 dir = [3, 0b00111111, dir <<< 7] ∧
      compose_motion_packet 3 EMERGENCY_STOP dir
        = [3, 0b00111111, (dir <<< 7) ||| 1]) := by
  refine ⟨by decide, by decide, by decide, ?_, ?_⟩
  · intro speed h1 h2 dir hdir
    have hs0 : ¬ (speed = 0) := by omega
    have hse : ¬ (speed = EMERGENCY_STOP) := by
      unfold EMERGENCY_STOP
      omega
    refine ⟨?_, by omega, by omega⟩
    simp [compose_motion_packet, MAXIMUM_SHORT_ADDRESS, hs0, hse]
  · intro dir
    constructor
    · simp [compose_motion_packet, MAXIMUM_SHORT_ADDRESS]
    · simp [compose_motion_packet, MAXIMUM_SHORT_ADDRESS, EMERGENCY_STOP]

/-- Witness for `C5_motion_packet`: the general speed-byte clause at
speed 10, direction 1. -/
theorem C5_motion_packet_witness :
    compose_motion_packet 3 10 1 = [3, 0b00111111, (1 <<< 7) ||| (11 : Int).toNat] ∧
    2 ≤ (11 : Int).toNat ∧ (11 : Int).toNat ≤ 127 :=
  C5_motion_packet.2.2.2.1 10 (by decide) (by decide) 1 (by decide)

/-- Counterexample to C5 as stated: the encoded bit stream of the
mobile packet for target 3 begins with the cells `[15, 7]`, not
`[15, 1]`. -/
theorem C5_counterexample :
    Option.map (List.take 2)
        (pack_command (copy_with_parity (compose_motion_packet 3 10 1)) false)
      = some [15, 7] ∧
    ¬ Option.map (List.take 2)
        (pack_command (copy_with_parity (compose_motion_packet 3 10 1)) false)
      = some [15, 1] := by
  decide

/-! ## Current-load monitor

`monitor_current_load` first folds the new sample through the ten
compounded accumulators, then checks spike, overload and
confirmation conditions.  The C expression
`( load_compound_value[ i ] = ( amps + load_compound_value[ i ]) >> 1 )`
is an arithmetic shift of a twos-complement `int`, i.e. floor
division by two, hence `Int.fdiv`. -/

def cascade (x : Int) (acc : List Int) : List Int :=
  match acc with
  | [] => []
  | a :: rest =>
    let na := Int.fdiv (x + a) 2
    na :: cascade na rest

structure MonState where
  load_compound_value : List Int
  load_confirmed : Bool
  power : PowerCtx
  errors : List (Int × Int)
deriving Repr, DecidableEq

/-- The per-sample monitor.  On a spike or overload with the power
still on, the power is cut, the reason is reported (with the last
compounded value, which is what `amps` holds after the update loop)
and the averages are flattened; the host power notification is
assumed delivered.  Otherwise the updated averages are kept and a
confirmation latches `load_confirmed` when the short-term average
exceeds the long-term one by more than `MINIMUM_DELTA_AMPS`. -/
def monitor_current_load (amps : Int) (s : MonState) : MonState :=
  let acc1 := cascade amps s.load_compound_value
  if acc1.getD 1 0 > INSTANT_CURRENT_LIMIT then
    if (power_off_tracks s.power).2 then
      { load_compound_value := List.replicate COMPOUNDED_VALUES 0,
        load_confirmed := s.load_confirmed,
        power := (power_off_tracks s.power).1,
        errors := s.errors ++ [(POWER_SPIKE, acc1.getD (COMPOUNDED_VALUES - 1) 0)] }
    else
      { s with load_compound_value := acc1,
               power := (power_off_tracks s.power).1 }
  else if acc1.getD (COMPOUNDED_VALUES - 1) 0 > AVERAGE_CURRENT_LIMIT then
    if (power_off_tracks s.power).2 then
      { load_compound_value := List.replicate COMPOUNDED_VALUES 0,
        load_confirmed := s.load_confirmed,
        power := (power_off_tracks s.power).1,
        errors := s.errors ++ [(POWER_OVERLOAD, acc1.getD (COMPOUNDED_VALUES - 1) 0)] }
    else
      { s with load_compound_value := acc1,
               power := (power_off_tracks s.power).1 }
  else if acc1.getD SHORT_AVERAGE_VALUE 0 - acc1.getD (COMPOUNDED_VALUES - 1) 0
      > MINIMUM_DELTA_AMPS then
    { s with load_compound_value := acc1, load_confirmed := true }
  else
    { s with load_compound_value := acc1 }

/-! ## Pending packets and the CV-write submission -/

structure PendingPacket where
  target : Int
  lpreamble : Bool
  duration : Nat
  command : List Nat
deriving Repr, DecidableEq

/-- `int_to_text`: decimal text of an `int`, used by the reply
builders.  `Nat.toDigits` produces the same most-significant-first
digit characters as the source's divide-by-ten loop. -/
def int_to_text (v : Int) : List Char :=
  if v = 0 then ['0']
  else (if v < 0 then ['-'] else []) ++ Nat.toDigits 10 v.natAbs

/-- `reply_2c`: `[<code><a1> <a2> #]\n`, the confirmation-style reply
template whose `#` placeholder is substituted at drain time. -/
def reply_2c (code : Char) (a1 a2 : Int) : List Char :=
  '[' :: code :: int_to_text a1 ++ [' '] ++ int_to_text a2 ++ [' ', '#', ']', '\n']

/-- The `strchr`-plus-assignment of the manager: replace the first
`#` of the template by `1` (confirmation seen) or `0`. -/
def subst_hash (cs : List Char) (conf : Bool) : List Char :=
  match cs with
  | [] => []
  | c :: rest =>
    if c = '#' then (if conf then '1' else '0') :: rest
    else c :: subst_hash rest conf

def has_hash (cs : List Char) : Bool := cs.any (fun c => c = '#')

structure CvWriteSubmission where
  packets : List PendingPacket
  reply : Nat
  contains : List Char
  load_confirmed : Bool
deriving Repr, DecidableEq

/-- The `case 'S'` handler of `scan_line` after argument parsing:
validates the ranges, then queues onto the programming buffer a
digital reset, the CV-write packet and a terminating reset (all with
the long preamble), sets the confirmation reply template and clears
`load_confirmed`.  Buffer acquisition (`find_available_buffer`), the
draining of any prior pending list and the final LOAD/RELOAD state
flip are outside this model; `packets` is the slot's pending list
right after submission. -/
def scan_set_cv (cv value : Int) : Except Int CvWriteSubmission :=
  if cv < MINIMUM_CV_ADDRESS ∨ cv > MAXIMUM_CV_ADDRESS then
    Except.error INVALID_CV_NUMBER
  else if value < 0 ∨ value > 255 then
    Except.error INVALID_BYTE_VALUE
  else
    Except.ok
      { packets :=
          [⟨0, true, SERVICE_MODE_RESET_REPEATS, copy_with_parity compose_digital_reset⟩,
           ⟨0, true, SERVICE_MODE_COMMAND_REPEATS, copy_with_parity (compose_set_cv cv value)⟩,
           ⟨0, true, SERVICE_MODE_RESET_REPEATS, copy_with_parity compose_digital_reset⟩],
        reply := REPLY_ON_CONFIRM,
        contains := reply_2c 'S' cv value,
        load_confirmed := false }

/-! ## Buffer management routine -/

structure TransBuffer where
  state : Nat
  target : Int
  duration : Nat
  bits : List Nat
  pending : List PendingPacket
  reply : Nat
  contains : List Char
deriving Repr, DecidableEq

/-- `management_service_routine` on one buffer: only LOAD buffers are
touched.  With pending packets, the head packet is encoded: on
success the buffer becomes RUN with the new bits, target and
duration, the packet is released, and an ON_SEND reply fires if it
was the last one; on failure a `BIT_TRANS_OVERFLOW` error is
reported, all pending packets are released and the buffer goes
EMPTY.  With no pending packets an ON_CONFIRM reply is emitted (the
`#` placeholder substituted with the confirmation outcome, or the
template sent only on confirmation when it has no placeholder) and
the buffer goes EMPTY.  Returns the updated buffer, the reported
errors and the emitted replies; the output queue is modeled as
always having space. -/
def management_service_routine (load_confirmed : Bool) (m : TransBuffer) :
    TransBuffer × List (Int × Int) × List (List Char) :=
  if m.state = TBS_LOAD then
    match m.pending with
    | pp :: rest =>
      match pack_command pp.command pp.lpreamble with
      | some bits =>
        let m1 : TransBuffer :=
          { m with target := pp.target, duration := pp.duration,
                   state := TBS_RUN, bits := bits, pending := rest }
        if m1.reply = REPLY_ON_SEND ∧ rest = [] then
          ({ m1 with reply := NO_REPLY_REQUIRED }, [], [m.contains])
        else (m1, [], [])
      | none =>
        ({ m with state := TBS_EMPTY, pending := [] },
         [(BIT_TRANS_OVERFLOW, pp.target)], [])
    | [] =>
      let outs :=
        if m.reply = REPLY_ON_CONFIRM then
          if has_hash m.contains then [subst_hash m.contains load_confirmed]
          else if load_confirmed then [m.contains] else []
        else []
      ({ m with reply := NO_REPLY_REQUIRED, state := TBS_EMPTY }, [], outs)
  else (m, [], [])

/-! ## Function cache -/

def MIN_FUNCTION_NUMBER : Nat := 0
def MAX_FUNCTION_NUMBER : Nat := 28
def FUNCTION_ON : Nat := 1
def FUNCTION_OFF : Nat := 0
def FUNCTION_BIT_ARRAY : Nat := (7 + 1 + MAX_FUNCTION_NUMBER - MIN_FUNCTION_NUMBER) >>> 3

structure FuncCacheEntry where
  target : Int
  bits : List Nat
deriving Repr, DecidableEq

/-- The search loop of `find_func_cache`: locate the entry for a
target, returning it along with the rest of the (MRU-ordered) list. -/
def fcLookup (t : Int) (cache : List FuncCacheEntry) :
    Option (FuncCacheEntry × List FuncCacheEntry) :=
  match cache with
  | [] => none
  | e :: rest =>
    if e.target = t then some (e, rest)
    else (fcLookup t rest).map (fun p => (p.1, e :: p.2))

/-- `find_func_cache`: a hit is moved to the head of the list; a miss
evicts the last (least recently used) record, which is reset to the
new target with all function bits clear and placed at the head. -/
def find_func_cache (t : Int) (cache : List FuncCacheEntry) :
    FuncCacheEntry × List FuncCacheEntry :=
  match fcLookup t cache with
  | some (e, rest) => (e, e :: rest)
  | none =>
    let e : FuncCacheEntry := ⟨t, List.replicate FUNCTION_BIT_ARRAY 0⟩
    (e, e :: cache.dropLast)

/-- Overwrite the bits of the head entry (the entry
`find_func_cache` just placed there). -/
def setFrontBits (cache : List FuncCacheEntry) (bits : List Nat) :
    List FuncCacheEntry :=
  match cache with
  | [] => []
  | e :: rest => ⟨e.target, bits⟩ :: rest

/-- `update_function`: set or clear bit `func` of the target's cached
bitmap; returns whether the stored value changed, with the updated
cache. -/
def update_function (t : Int) (func : Nat) (state : Bool)
    (cache : List FuncCacheEntry) : Bool × List FuncCacheEntry :=
  let r := find_func_cache t cache
  let i := func >>> 3
  let b := 1 <<< (func &&& 7)
  let cur := r.1.bits.getD i 0
  if state then
    if cur &&& b ≠ 0 then (false, r.2)
    else (true, setFrontBits r.2 (r.1.bits.set i (cur ||| b)))
  else
    if cur &&& b = 0 then (false, r.2)
    else (true, setFrontBits r.2 (r.1.bits.set i (cur &&& (255 ^^^ b))))

/-- `get_function`: `val` if the cached bit is set, else 0. -/
def get_function (t : Int) (func : Nat) (val : Nat)
    (cache : List FuncCacheEntry) : Nat × List FuncCacheEntry :=
  let r := find_func_cache t cache
  let i := func >>> 3
  let b := 1 <<< (func &&& 7)
  (if r.1.bits.getD i 0 &&& b ≠ 0 then val else 0, r.2)

/-- `compose_function_change`: when the requested update changes the
cached value, build the function-group packet for `func` from the
whole group's cached bits; otherwise substitute an idle packet
`[0xFF, 0x00]`. -/
def compose_function_change (adrs : Int) (func : Nat) (state : Nat)
    (cache : List FuncCacheEntry) : List Nat × List FuncCacheEntry :=
  let u := update_function adrs func (state == FUNCTION_ON) cache
  if u.1 then
    let addr : List Nat :=
      if adrs > (MAXIMUM_SHORT_ADDRESS : Int) then
        [0b11000000 ||| (adrs.toNat >>> 8), adrs.toNat &&& 0b11111111]
      else [adrs.toNat]
    if func ≤ 4 then
      let r0 := get_function adrs 0 0x10 u.2
      let r1 := get_function adrs 1 0x01 r0.2
      let r2 := get_function adrs 2 0x02 r1.2
      let r3 := get_function adrs 3 0x04 r2.2
      let r4 := get_function adrs 4 0x08 r3.2
      (addr ++ [0x80 ||| r0.1 ||| r1.1 ||| r2.1 ||| r3.1 ||| r4.1], r4.2)
    else if func ≤ 8 then
      let r5 := get_function adrs 5 0x01 u.2
      let r6 := get_function adrs 6 0x02 r5.2
      let r7 := get_function adrs 7 0x04 r6.2
      let r8 := get_function adrs 8 0x08 r7.2
      (addr ++ [0xb0 ||| r5.1 ||| r6.1 ||| r7.1 ||| r8.1], r8.2)
    else if func ≤ 12 then
      let r9 := get_function adrs 9 0x01 u.2
      let r10 := get_function adrs 10 0x02 r9.2
      let r11 := get_function adrs 11 0x04 r10.2
      let r12 := get_function adrs 12 0x08 r11.2
      (addr ++ [0xa0 ||| r9.1 ||| r10.1 ||| r11.1 ||| r12.1], r12.2)
    else if func ≤ 20 then
      let r13 := get_function adrs 13 0x01 u.2
      let r14 := get_function adrs 14 0x02 r13.2
      let r15 := get_function adrs 15 0x04 r14.2
      let r16 := get_function adrs 16 0x08 r15.2
      let r17 := get_function adrs 17 0x10 r16.2
      let r18 := get_function adrs 18 0x20 r17.2
      let r19 := get_function adrs 19 0x40 r18.2
      let r20 := get_function adrs 20 0x80 r19.2
      (addr ++ [0xde, r13.1 ||| r14.1 ||| r15.1 ||| r16.1 ||| r17.1
        ||| r18.1 ||| r19.1 ||| r20.1], r20.2)
    else
      let r21 := get_function adrs 21 0x01 u.2
      let r22 := get_function adrs 22 0x02 r21.2
      let r23 := get_function adrs 23 0x04 r22.2
      let r24 := get_function adrs 24 0x08 r23.2
      let r25 := get_function adrs 25 0x10 r24.2
      let r26 := get_function adrs 26 0x20 r25.2
      let r27 := get_function adrs 27 0x40 r26.2
      let r28 := get_function adrs 28 0x80 r27.2
      (addr ++ [0xdf, r21.1 ||| r22.1 ||| r23.1 ||| r24.1 ||| r25.1
        ||| r26.1 ||| r27.1 ||| r28.1], r28.2)
  else ([0xff, 0x00], u.2)

/-- The full-queue scan of `report_error`: index of the first
queued `ERROR_QUEUE_OVERFLOW` record, if any. -/
def findOverflowIdx (q : List (Int × Int)) : Option Nat :=
  match q with
  | [] => none
  | e :: rest =>
    if e.1 = ERROR_QUEUE_OVERFLOW then some 0
    else (findOverflowIdx rest).map (fun i => i + 1)

/-! ## Error queue -/

structure ErrState where
  queue : List (Int × Int)
  error_in : Nat
  error_out : Nat
  errors_pending : Nat
deriving Repr, DecidableEq

/-- `report_error`: with room in the queue, append at `error_in`
(wrapping) and count it.  With a full queue, bump the argument of an
existing `ERROR_QUEUE_OVERFLOW` record if one exists; otherwise
discard the incoming error and overwrite the most recently queued
entry (the one just before `error_in`, wrapping) with the overflow
marker and count 1. -/
def report_error (err arg : Int) (s : ErrState) : ErrState :=
  if s.errors_pending < ERROR_QUEUE_SIZE then
    { s with
      queue := s.queue.set s.error_in (err, arg),
      error_in := if s.error_in + 1 = ERROR_QUEUE_SIZE then 0 else s.error_in + 1,
      errors_pending := s.errors_pending + 1 }
  else
    match findOverflowIdx s.queue with
    | some i =>
      let e := s.queue.getD i (0, 0)
      { s with queue := s.queue.set i (e.1, e.2 + 1) }
    | none =>
      let j := if s.error_in = 0 then ERROR_QUEUE_SIZE - 1 else s.error_in - 1
      { s with queue := s.queue.set j (ERROR_QUEUE_OVERFLOW, 1) }

/-! ## Claim C2: CV byte write submission -/

/-- C2 (amended): submitting a CV byte write with cv 1 and value 42
queues three pending packets on the programming buffer in order: a
long-preamble digital reset (`[0,0,0]`, 20 repeats), the CV-write
packet `[0x7C, 0x00, 0x2A, 0x56]` (10 repeats, long preamble — 30
ones), and a terminating reset; there is no duplicate write packet.
The reply mode is `REPLY_ON_CONFIRM` with a `#` placeholder, and at
slot drain the manager substitutes the placeholder with the observed
acknowledgment bit. -/
theorem C2_cv_write_submission :
    scan_set_cv 1 42 = Except.ok
      ⟨[⟨0, true, SERVICE_MODE_RESET_REPEATS, [0x00, 0x00, 0x00]⟩,
        ⟨0, true, SERVICE_MODE_COMMAND_REPEATS, [0x7C, 0x00, 0x2A, 0x56]⟩,
        ⟨0, true, SERVICE_MODE_RESET_REPEATS, [0x00, 0x00, 0x00]⟩],
       REPLY_ON_CONFIRM, reply_2c 'S' 1 42, false⟩ ∧
    (∀ conf : Bool,
      management_service_routine conf
          ⟨TBS_LOAD, 0, 0, [], [], REPLY_ON_CONFIRM, reply_2c 'S' 1 42⟩
        = (⟨TBS_EMPTY, 0, 0, [], [], NO_REPLY_REQUIRED, reply_2c 'S' 1 42⟩, [],
           [subst_hash (reply_2c 'S' 1 42) conf])) ∧
    subst_hash (reply_2c 'S' 1 42) true = ('[' :: 'S' :: "1 42 1]".toList ++ ['\n']) ∧
    subst_hash (reply_2c 'S' 1 42) false = ('[' :: 'S' :: "1 42 0]".toList ++ ['\n']) := by
  refine ⟨by rfl, ?_, by decide, by decide⟩
  intro conf
  cases conf <;> rfl

/-- Witness for `C2_cv_write_submission`: the drain clause with a
confirmation observed. -/
theorem C2_cv_write_submission_witness :
    management_service_routine true
        ⟨TBS_LOAD, 0, 0, [], [], REPLY_ON_CONFIRM, reply_2c 'S' 1 42⟩
      = (⟨TBS_EMPTY, 0, 0, [], [], NO_REPLY_REQUIRED, reply_2c 'S' 1 42⟩, [],
         [subst_hash (reply_2c 'S' 1 42) true]) :=
  C2_cv_write_submission.2.1 true

/-- Counterexample to C2 as stated: the handler queues three pending
packets, not four (the write packet is not duplicated), and the long
programming preamble is 30 ones, not 20. -/
theorem C2_counterexample :
    Option.map (fun s => s.packets.length) (Except.toOption (scan_set_cv 1 42))
      = some 3 ∧
    (3 : Nat) ≠ 4 ∧
    DCC_LONG_PREAMBLE = 30 ∧ (30 : Nat) ≠ 20 := by
  decide

/-! ## Claim C6: cascaded averaging and confirmation latch -/

lemma cascade_getD_succ (acc : List Int) (x : Int) (i : Nat)
    (h : i + 1 < acc.length) :
    (cascade x acc).getD (i + 1) 0
      = Int.fdiv ((cascade x acc).getD i 0 + acc.getD (i + 1) 0) 2 := by
  induction acc generalizing x i with
  | nil => simp at h
  | cons a rest ih =>
    cases rest with
    | nil => simp at h
    | cons b rest' =>
      cases i with
      | zero => simp [cascade]
      | succ j =>
        have hj : j + 1 < (b :: rest').length := by
          simp only [List.length_cons] at h ⊢
          omega
        simpa [cascade] using ih (Int.fdiv (x + a) 2) j hj

/-- C6: on every sample the monitor first updates the ten cascaded
accumulators by `acc[0] ← (sample + acc[0]) / 2` and
`acc[i+1] ← (acc[i] + acc[i+1]) / 2` for successive `i` (floor
division, as the C `>> 1`), and when neither the spike condition
(`acc[1] > INSTANT_CURRENT_LIMIT`) nor the overload condition
(`acc[9] > AVERAGE_CURRENT_LIMIT`) holds, it keeps the updated
accumulators, touches neither power nor error state, and latches
`load_confirmed` to true exactly when
`acc[2] - acc[9] > MINIMUM_DELTA_AMPS` (leaving it unchanged
otherwise). -/
theorem C6_monitor_cascade_latch (amps : Int) (acc : List Int) (conf : Bool)
    (pw : PowerCtx) (errs : List (Int × Int))
    (hlen : acc.length = COMPOUNDED_VALUES) :
    ((cascade amps acc).getD 0 0 = Int.fdiv (amps + acc.getD 0 0) 2) ∧
    (∀ i, i + 1 < COMPOUNDED_VALUES →
      (cascade amps acc).getD (i + 1) 0
        = Int.fdiv ((cascade amps acc).getD i 0 + acc.getD (i + 1) 0) 2) ∧
    (¬ ((cascade amps acc).getD 1 0 > INSTANT_CURRENT_LIMIT) →
     ¬ ((cascade amps acc).getD (COMPOUNDED_VALUES - 1) 0 > AVERAGE_CURRENT_LIMIT) →
      (monitor_current_load amps ⟨acc, conf, pw, errs⟩).load_compound_value
          = cascade amps acc ∧
      (monitor_current_load amps ⟨acc, conf, pw, errs⟩).power = pw ∧
      (monitor_current_load amps ⟨acc, conf, pw, errs⟩).errors = errs ∧
      ((cascade amps acc).getD SHORT_AVERAGE_VALUE 0
          - (cascade amps acc).getD (COMPOUNDED_VALUES - 1) 0 > MINIMUM_DELTA_AMPS →
        (monitor_current_load amps ⟨acc, conf, pw, errs⟩).load_confirmed = true) ∧
      (¬ ((cascade amps acc).getD SHORT_AVERAGE_VALUE 0
          - (cascade amps acc).getD (COMPOUNDED_VALUES - 1) 0 > MINIMUM_DELTA_AMPS) →
        (monitor_current_load amps ⟨acc, conf, pw, errs⟩).load_confirmed = conf)) := by
  obtain ⟨a, rest, rfl⟩ : ∃ a rest, acc = a :: rest := by
    cases acc with
    | nil => simp [COMPOUNDED_VALUES] at hlen
    | cons a rest => exact ⟨a, rest, rfl⟩
  refine ⟨by simp [cascade], ?_, ?_⟩
  · intro i hi
    exact cascade_getD_succ (a :: rest) amps i (by rw [hlen]; exact hi)
  · intro hspike hover
    by_cases hd : (cascade amps (a :: rest)).getD SHORT_AVERAGE_VALUE 0
        - (cascade amps (a :: rest)).getD (COMPOUNDED_VALUES - 1) 0
        > MINIMUM_DELTA_AMPS
    · have hgoal : monitor_current_load amps ⟨a :: rest, conf, pw, errs⟩
          = ⟨cascade amps (a :: rest), true, pw, errs⟩ := by
        simp only [monitor_current_load]
        rw [if_neg hspike, if_neg hover, if_pos hd]
      exact ⟨by rw [hgoal], by rw [hgoal], by rw [hgoal],
        fun _ => by rw [hgoal], fun hnd => absurd hd hnd⟩
    · have hgoal : monitor_current_load amps ⟨a :: rest, conf, pw, errs⟩
          = ⟨cascade amps (a :: rest), conf, pw, errs⟩ := by
        simp only [monitor_current_load]
        rw [if_neg hspike, if_neg hover, if_neg hd]
      exact ⟨by rw [hgoal], by rw [hgoal], by rw [hgoal],
        fun hdd => absurd hdd hd, fun _ => by rw [hgoal]⟩

/-- Witness for `C6_monitor_cascade_latch`: a 400-count sample on
flattened averages produces `acc = [200,100,50,25,12,6,3,1,0,0]`, no
spike or overload, and a delta of 50 latches the confirmation. -/
theorem C6_monitor_cascade_latch_witness :
    (monitor_current_load 400
        ⟨List.replicate 10 0, false, ⟨PowerState.main, true, false⟩, []⟩).load_confirmed
      = true :=
  ((C6_monitor_cascade_latch 400 (List.replicate 10 0) false
      ⟨PowerState.main, true, false⟩ [] (by decide)).2.2
    (by decide) (by decide)).2.2.2.1 (by decide)

/-! ## Claim C8: encoder failure handling by the manager -/

/-- C8 (amended): the encoder has no explicit 255 run-length cap (a
run that long simply cannot arise from commands of at most 6 bytes);
encoding fails when the cell buffer of `BIT_TRANSITIONS` entries
would overflow, as for the worst-case 6-byte command of `0x55`
bytes.  Whenever encoding of the head pending packet fails, the
manager reports `BIT_TRANS_OVERFLOW` with the packet's target, frees
the whole pending list and moves the buffer to EMPTY. -/
theorem C8_encode_failure_recovery :
    pack_command (List.replicate 6 0x55) false = none ∧
    (∀ (conf : Bool) (m : TransBuffer) (pp : PendingPacket)
        (rest : List PendingPacket),
      m.state = TBS_LOAD → m.pending = pp :: rest →
      pack_command pp.command pp.lpreamble = none →
      management_service_routine conf m
        = ({ m with state := TBS_EMPTY, pending := [] },
           [(BIT_TRANS_OVERFLOW, pp.target)], [])) := by
  refine ⟨by decide, ?_⟩
  intro conf m pp rest hstate hpend hfail
  simp [management_service_routine, hstate, hpend, hfail]

/-- Witness for `C8_encode_failure_recovery`: a LOAD buffer whose
head pending packet is the unencodable 6-byte `0x55` command is
dropped to EMPTY with a `BIT_TRANS_OVERFLOW` report. -/
theorem C8_encode_failure_recovery_witness :
    management_service_routine false
        ⟨TBS_LOAD, 9, 0, [], [⟨9, false, 1, List.replicate 6 0x55⟩],
         NO_REPLY_REQUIRED, []⟩
      = (⟨TBS_EMPTY, 9, 0, [], [], NO_REPLY_REQUIRED, []⟩,
         [(BIT_TRANS_OVERFLOW, 9)], []) :=
  C8_encode_failure_recovery.2 false
    ⟨TBS_LOAD, 9, 0, [], [⟨9, false, 1, List.replicate 6 0x55⟩],
     NO_REPLY_REQUIRED, []⟩
    ⟨9, false, 1, List.replicate 6 0x55⟩ [] rfl rfl (by decide)

set_option maxRecDepth 4000 in
/-- Counterexample to C8 as stated: a run count exceeding 255 does
not make the encoder fail.  For 28 zero bytes followed by `0x10` the
initial zero run is 256 bits long; the byte-sized counter wraps to 0
and `pack_command` still succeeds, emitting the bogus zero cell in
the middle of the stream. -/
theorem C8_counterexample :
    pack_command (List.replicate 28 0 ++ [0x10]) false
      = some [15, 0, 1, 4, 1, 0] := by
  decide

/-! ## Claim C9: function-cache miss on a turn-OFF request -/

lemma fcLookup_eq_none {t : Int} {cache : List FuncCacheEntry}
    (h : ∀ e ∈ cache, e.target ≠ t) : fcLookup t cache = none := by
  induction cache with
  | nil => rfl
  | cons e rest ih =>
    have he : e.target ≠ t := h e (by simp)
    simp [fcLookup, he, ih (fun x hx => h x (by simp [hx]))]

lemma getD_replicate_zero (n i : Nat) :
    (List.replicate n (0 : Nat)).getD i 0 = 0 := by
  induction n generalizing i with
  | zero => simp
  | succ m ih => cases i <;> simp [List.replicate_succ, ih]

/-- C9: a function request for a target absent from the cache evicts
the least-recently-used entry (the tail of the MRU list) and installs
the target with all function bits clear before the change test; a
turn-OFF request for such a never-seen target therefore reports no
change and composes the 2-byte idle packet `[0xFF, 0x00]` instead of
a function-group packet, while the eviction still takes effect. -/
theorem C9_function_cache_miss (cache : List FuncCacheEntry) (t : Int) (func : Nat)
    (hne : cache ≠ []) (habs : ∀ e ∈ cache, e.target ≠ t)
    (hfunc : func ≤ MAX_FUNCTION_NUMBER) :
    find_func_cache t cache
      = (⟨t, List.replicate FUNCTION_BIT_ARRAY 0⟩,
         ⟨t, List.replicate FUNCTION_BIT_ARRAY 0⟩ :: cache.dropLast) ∧
    update_function t func false cache
      = (false, ⟨t, List.replicate FUNCTION_BIT_ARRAY 0⟩ :: cache.dropLast) ∧
    compose_function_change t func FUNCTION_OFF cache
      = ([0xFF, 0x00], ⟨t, List.replicate FUNCTION_BIT_ARRAY 0⟩ :: cache.dropLast) := by
  have hlk := fcLookup_eq_none habs
  have hfind : find_func_cache t cache
      = (⟨t, List.replicate FUNCTION_BIT_ARRAY 0⟩,
         ⟨t, List.replicate FUNCTION_BIT_ARRAY 0⟩ :: cache.dropLast) := by
    simp [find_func_cache, hlk]
  have hupd : update_function t func false cache
      = (false, ⟨t, List.replicate FUNCTION_BIT_ARRAY 0⟩ :: cache.dropLast) := by
    simp [update_function, hfind, getD_replicate_zero]
  refine ⟨hfind, hupd, ?_⟩
  have hoff : (FUNCTION_OFF == FUNCTION_ON) = false := rfl
  simp [compose_function_change, hoff, hupd]

/-- Witness for `C9_function_cache_miss`: turning F0 off for the
never-seen target 3 with a single-entry cache. -/
theorem C9_function_cache_miss_witness :
    compose_function_change 3 0 FUNCTION_OFF [⟨0, [0, 0, 0, 0]⟩]
      = ([0xFF, 0x00], [⟨3, [0, 0, 0, 0]⟩]) :=
  (C9_function_cache_miss [⟨0, [0, 0, 0, 0]⟩] 3 0 (by decide) (by decide)
    (by decide)).2.2

/-! ## Claim C10: error-queue overflow coalescing -/

lemma findOverflowIdx_eq_none {q : List (Int × Int)}
    (h : ∀ e ∈ q, e.1 ≠ ERROR_QUEUE_OVERFLOW) : findOverflowIdx q = none := by
  induction q with
  | nil => rfl
  | cons e rest ih =>
    have he : e.1 ≠ ERROR_QUEUE_OVERFLOW := h e (by simp)
    simp [findOverflowIdx, he, ih (fun x hx => h x (by simp [hx]))]

/-- C10: when the 5-entry error queue is full and holds no
`ERROR_QUEUE_OVERFLOW` record, a further `report_error` discards the
incoming error and overwrites the most recently queued entry — the
one just before `error_in`, wrapping, not the oldest — with
`(ERROR_QUEUE_OVERFLOW, 1)`; and while the queue stays full with an
overflow record present, every further report increments that
record's argument by one regardless of the reported code. -/
theorem C10_error_queue_overflow :
    (∀ (q : List (Int × Int)) (ein eout : Nat) (err arg : Int),
      (∀ e ∈ q, e.1 ≠ ERROR_QUEUE_OVERFLOW) →
      report_error err arg ⟨q, ein, eout, ERROR_QUEUE_SIZE⟩
        = ⟨q.set (if ein = 0 then ERROR_QUEUE_SIZE - 1 else ein - 1)
              (ERROR_QUEUE_OVERFLOW, 1),
           ein, eout, ERROR_QUEUE_SIZE⟩) ∧
    (∀ (s : ErrState) (i : Nat) (err arg : Int),
      ¬ s.errors_pending < ERROR_QUEUE_SIZE →
      findOverflowIdx s.queue = some i →
      report_error err arg s
        = { s with queue := s.queue.set i ((s.queue.getD i (0, 0)).1, (s.queue.getD i (0, 0)).2 + 1) }) := by
  constructor
  · intro q ein eout err arg hno
    have hnone := findOverflowIdx_eq_none hno
    simp [report_error, hnone]
  · intro s i err arg hfull hfind
    simp [report_error, hfull, hfind]

/-- Witness for `C10_error_queue_overflow`: a full queue of five
non-overflow errors receives a sixth report; the entry written most
recently (index `error_in - 1 = 1`) becomes `(ERROR_QUEUE_OVERFLOW, 1)`. -/
theorem C10_error_queue_overflow_witness :
    report_error 9 4 ⟨[(5, 1), (6, 2), (7, 3), (8, 4), (9, 5)], 2, 2, ERROR_QUEUE_SIZE⟩
      = ⟨[(5, 1), (ERROR_QUEUE_OVERFLOW, 1), (7, 3), (8, 4), (9, 5)], 2, 2,
         ERROR_QUEUE_SIZE⟩ := by
  have h := C10_error_queue_overflow.1 [(5, 1), (6, 2), (7, 3), (8, 4), (9, 5)]
    2 2 9 4 (by decide)
  simpa using h

end DCCGen
